import Mathlib

/-!
Verification of the topology-skew aggregation pipeline of kubectl-topology-skew.

The development shallowly embeds the Rust source:
* `src/src/topology.rs` — the skew calculator (`Region::new`, `Zone::new`) and the
  result-set container (`Topologies`);
* `src/src/kube.rs` — the node snapshot (`CachedNodeApi`), the readiness / running
  filters, and the batched fetch helpers (`pods_by`, `nodes_by`);
* `src/src/view.rs` — the renderer entry point (`out`);
* `src/src/node.rs` — the node subcommand's empty-result check.

Rust collection types are embedded as follows: `Vec<T>` as `List T`; `HashMap`
key-value snapshots as association lists; `HashSet<String>` inputs as `List String`
(iteration order is arbitrary in the source, and order-independence of the
consumers is proved below); `BTreeSet<Zone>` as the list of members enumerated in
ascending key order; `BTreeSet<Topology>` as the `Finset` of its members, since the
claims about it concern only membership and deduplication.  Machine integers
(`u32`, `usize`) are embedded as `Nat`, with the truncating `as u32` casts of
topology.rs line 107 embedded as reduction mod 2^32 (`u32Of`) and the `u32`
subtraction of `Zone::new` as the wrapping `u32Sub`.  Rust's `Ord` on `String` (byte-wise
lexicographic on UTF-8, which coincides with lexicographic comparison of Unicode
scalar values) is embedded as the structurally recursive `strLe` below.

The asynchronous cluster calls (`Api::list`) are the only I/O in the pipeline; each
embedded function that consumes their results takes the call outcomes as an
explicit argument of type `Except String _`, matching the `Result` the source
receives from the awaited future.
-/

namespace TopologySkew

/-! ## Lexicographic string order (Rust's derived `Ord` on `String`) -/

/-- Lexicographic less-or-equal on character lists, comparing Unicode scalar values. -/
def strLeAux : List Char → List Char → Bool
  | [], _ => true
  | _ :: _, [] => false
  | a :: as, b :: bs =>
    a.val.toNat < b.val.toNat || (a.val.toNat = b.val.toNat && strLeAux as bs)

/-- Lexicographic less-or-equal on strings: Rust's `Ord` on `String`
(byte-wise UTF-8 order, equivalently scalar-value lexicographic order). -/
def strLe (a b : String) : Bool :=
  strLeAux a.data b.data

/-- Strict lexicographic order on strings, as a proposition. -/
def strLt (a b : String) : Prop := strLe a b = true ∧ a ≠ b

instance strLt.decidable (a b : String) : Decidable (strLt a b) :=
  inferInstanceAs (Decidable (strLe a b = true ∧ a ≠ b))

/-! ## Ordered key sets (the `BTreeSet` / sorted-map key model)

`Region::new` stores its merged counts in a `HashMap<String, usize>` and collects the
emitted rows into a `BTreeSet<Zone>`; the derived `Ord` on `Zone` compares the `name`
field first, and names are unique (they are keys of the map), so the rows are
enumerated in strictly ascending lexicographic order of their names.  The embedding
represents the key set directly as a strictly-sorted duplicate-free list built by
ordered insertion. -/

/-- Insert a key into a strictly-sorted list, keeping it sorted and duplicate-free. -/
def insertKey (k : String) : List String → List String
  | [] => [k]
  | x :: xs =>
    if k = x then x :: xs
    else if strLe k x then k :: x :: xs
    else x :: insertKey k xs

/-- The canonical strictly-sorted enumeration of the set of members of a list. -/
def sortedKeys (l : List String) : List String :=
  l.foldr insertKey []

/-! ## Skew calculator (src/src/topology.rs) -/

/-- The modulus of the `u32` type: 2^32. -/
def u32Size : Nat := 4294967296

/-- The truncating cast `as u32` applied to a `usize` value (src/src/topology.rs
line 107): reduction mod 2^32. -/
def u32Of (n : Nat) : Nat := n % u32Size

/-- `u32` subtraction of values already in `u32` range, with the wrapping
(release-profile) semantics: when the left operand is smaller the result wraps
around 2^32 (a debug build panics instead — either way the program does not
produce the exact difference there). -/
def u32Sub (a b : Nat) : Nat := (a + u32Size - b) % u32Size

/-- A row of the skew table: `Zone` in src/src/topology.rs (lines 114-119),
fields `name`, `count`, `skew` (both numeric fields are `u32` in the source). -/
structure Zone where
  name : String
  count : Nat
  skew : Nat
deriving DecidableEq, Repr

/-- `Zone::new` (src/src/topology.rs lines 121-126): `skew = count - min_count_in_region`,
a `u32` subtraction of the already-cast operands, embedded with its wrapping
semantics by `u32Sub`. -/
def Zone.new (name : String) (count : Nat) (min_count_in_region : Nat) : Zone :=
  ⟨name, count, u32Sub count min_count_in_region⟩

/-- Value of the merged count map of `Region::new` (src/src/topology.rs lines 93-101)
at key `k`: the `count_map` is seeded with every member of `all_zones` at `0usize` and
then `extend`ed with the per-value occurrence counts of `scheduled_zone`
(`scheduled_zone.into_iter().counts()`), so a key present in `scheduled_zone` holds
its occurrence count and every other seeded key keeps 0. -/
def overlayCount (all_zones scheduled_zone : List String) (k : String) : Nat :=
  if k ∈ scheduled_zone then scheduled_zone.count k else 0

/-- Key set of the merged count map of `Region::new`: the members of `all_zones`
(the seed) together with the values occurring in `scheduled_zone` (added by
`extend`), enumerated in ascending lexicographic order — the order in which the
`BTreeSet<Zone>` built from the map enumerates its rows. -/
def mergedKeys (all_zones scheduled_zone : List String) : List String :=
  sortedKeys (all_zones ++ scheduled_zone)

/-- Minimum entry of a list of counts, or 0 when there is none:
`count_map.values().min().copied().unwrap_or(0)` (src/src/topology.rs line 103). -/
def minOrZero (l : List Nat) : Nat :=
  match l with
  | [] => 0
  | x :: xs => xs.foldl min x

/-- `min_count_in_region` of `Region::new` (src/src/topology.rs line 103): the
minimum value of the merged count map, or 0 when the map is empty. -/
def min_count_in_region (all_zones scheduled_zone : List String) : Nat :=
  minOrZero ((mergedKeys all_zones scheduled_zone).map (overlayCount all_zones scheduled_zone))

/-- `Region` in src/src/topology.rs (lines 85-89): a named group of skew rows.
The `BTreeSet<Zone>` is embedded as the list of its members in ascending order
(the derived `Ord` on `Zone` compares `name` first, and row names are unique). -/
structure Region where
  name : String
  zones : List Zone
deriving DecidableEq, Repr

/-- `Region::new` (src/src/topology.rs lines 92-111): build the merged count map,
take the minimum of its values, and emit one `Zone` row per key, casting each
`usize` count and the minimum to `u32` (`count as u32`, `min_count_in_region as
u32`, line 107) before handing them to `Zone::new`; the casts are embedded as
`u32Of`. -/
def Region.new (name : String) (scheduled_zone : List String) (all_zones : List String) : Region :=
  let minc := min_count_in_region all_zones scheduled_zone
  ⟨name, (mergedKeys all_zones scheduled_zone).map
    (fun zone_name => Zone.new zone_name (u32Of (overlayCount all_zones scheduled_zone zone_name))
      (u32Of minc))⟩

/-- An observed-value list with 2^32 occurrences of "z-a" and a single "z-b": a
legal `Vec<String>` on a 64-bit target, large enough that the `as u32` cast of
`Region::new` truncates the "z-a" count. -/
def hugeV : List String := List.replicate u32Size "z-a" ++ ["z-b"]

/-! ## Cluster data model (the k8s_openapi fields the pipeline reads) -/

/-- One entry of `NodeStatus.conditions`: the `type_` and `status` fields read by
`only_node_running` (src/src/kube.rs lines 178-188). -/
structure NodeCondition where
  type_ : String
  status : String
deriving DecidableEq, Repr

/-- `NodeStatus`: the `conditions` field, optional as in k8s_openapi. -/
structure NodeStatus where
  conditions : Option (List NodeCondition)
deriving DecidableEq, Repr

/-- A cluster node: its name, its label map (association list), and its status. -/
structure Node where
  name : String
  labels : List (String × String)
  status : Option NodeStatus
deriving DecidableEq, Repr

/-- `PodSpec`: the `node_name` binding read by `node_names` (src/src/kube.rs lines 198-202). -/
structure PodSpec where
  node_name : Option String
deriving DecidableEq, Repr

/-- `PodStatus`: the `phase` field read by `only_pod_running` (src/src/kube.rs lines 171-176). -/
structure PodStatus where
  phase : Option String
deriving DecidableEq, Repr

/-- A workload instance: its name, spec and status, each optional as in k8s_openapi. -/
structure Pod where
  name : String
  spec : Option PodSpec
  status : Option PodStatus
deriving DecidableEq, Repr

/-! ## Filters and fetch helpers (src/src/kube.rs) -/

/-- The `is_running` closure of `only_pod_running` (src/src/kube.rs line 172):
`status.phase.as_ref().map(|phase| phase == "Running")`. -/
def is_running (status : PodStatus) : Option Bool :=
  status.phase.map (fun phase => phase == "Running")

/-- `only_pod_running` (src/src/kube.rs lines 171-176): keep pods whose phase is
`"Running"`; a pod with no status or no phase is dropped (`unwrap_or(false)`). -/
def only_pod_running (pods : List Pod) : List Pod :=
  pods.filter (fun pod => ((pod.status.bind (fun s => is_running s)).getD false))

/-- The `is_ready` closure of `only_node_running` (src/src/kube.rs lines 179-185):
`status.conditions.as_ref().map(|conditions| conditions.iter().any(|condi|
condi.type_ == "Ready" && condi.status == "True"))`. -/
def is_ready (status : NodeStatus) : Option Bool :=
  status.conditions.map (fun conditions =>
    conditions.any (fun condi => condi.type_ == "Ready" && condi.status == "True"))

/-- `only_node_running` (src/src/kube.rs lines 178-188): the filter is
`node.status.as_ref().and_then(is_ready).is_some()` — note that the boolean computed
by `is_ready` is discarded and only its presence is tested. -/
def only_node_running (nodes : List Node) : List Node :=
  nodes.filter (fun node => (node.status.bind (fun s => is_ready s)).isSome)

/-- Readiness as the specification words it (§4.3 and claim C4): the node's status
conditions contain a condition of type "Ready" with status "True".  Stated for
comparison with `only_node_running`; it is what the `is_ready` closure computes
before `only_node_running` discards it. -/
def node_ready_spec (node : Node) : Bool :=
  match node.status with
  | none => false
  | some status =>
    match status.conditions with
    | none => false
    | some conditions =>
      conditions.any (fun condi => condi.type_ == "Ready" && condi.status == "True")

/-- A node whose only status condition is `Ready = "False"`: not ready. -/
def notReadyNode : Node :=
  ⟨"node-a", [], some ⟨some [⟨"Ready", "False"⟩]⟩⟩

/-- `node_names` (src/src/kube.rs lines 198-202): the bound node name of each pod
that has one. -/
def node_names (pods : List Pod) : List String :=
  pods.filterMap (fun pod => pod.spec.bind (fun spec => spec.node_name))

/-- The node snapshot `CachedNodeApi` (src/src/kube.rs lines 55-59): a map from node
name to node, listed once at construction and never reacquired. -/
structure CachedNodeApi where
  cached : List (String × Node)
deriving DecidableEq, Repr

/-- `CachedNodeApi::get` (src/src/kube.rs lines 96-99): a pure lookup in the
snapshot — `self.cached.read().unwrap().get(node_name).cloned()`. -/
def CachedNodeApi.get (api : CachedNodeApi) (node_name : String) : Option Node :=
  (api.cached.find? (fun kv => kv.1 == node_name)).map (fun kv => kv.2)

/-- `CachedNodeApi::domains` (src/src/kube.rs lines 77-94): the distinct values of
the `topology_key` label across the snapshot (a `HashSet<String>`, embedded as a
duplicate-free list; its iteration order is immaterial downstream). -/
def CachedNodeApi.domains (api : CachedNodeApi) (topology_key : String) : List String :=
  (api.cached.filterMap (fun kv =>
    (kv.2.labels.find? (fun l => l.1 == topology_key)).map (fun l => l.2))).dedup

/-- `CachedNodeApi::list` (src/src/kube.rs lines 101-122): snapshot nodes whose
label map contains every entry of the filter. -/
def CachedNodeApi.list (api : CachedNodeApi) (labels : List (String × String)) : List Node :=
  api.cached.filterMap (fun kv =>
    if labels.all (fun search_label =>
        kv.2.labels.any (fun node_label => search_label == node_label))
    then some kv.2 else none)

/-- `nodes_by` (src/src/kube.rs lines 204-221): look each bound node name up in the
snapshot, drop the misses (`flatten`), keep the "running" nodes, and wrap in `Ok` —
the function has no failing path. -/
def nodes_by (pods : List Pod) (api : CachedNodeApi) : Except String (List Node) :=
  Except.ok (only_node_running ((node_names pods).filterMap (fun node_name => api.get node_name)))

/-- The `collect::<Result<Vec<_>>>()` step of `pods_by` (src/src/kube.rs line 246):
the first error short-circuits, otherwise all per-selector lists are collected. -/
def collect_results : List (Except String (List Pod)) → Except String (List (List Pod))
  | [] => Except.ok []
  | r :: rs =>
    match r with
    | Except.error e => Except.error e
    | Except.ok pods =>
      match collect_results rs with
      | Except.error e => Except.error e
      | Except.ok rest => Except.ok (pods :: rest)

/-- `pods_by` (src/src/kube.rs lines 223-254): one list call per label selector,
awaited as a batch; `results` is the outcome of each underlying call.  The results
are collected fail-fast, merged (`flatten`) and filtered to running pods. -/
def pods_by (results : List (Except String (List Pod))) : Except String (List Pod) :=
  match collect_results results with
  | Except.error e => Except.error e
  | Except.ok pods_lists => Except.ok (only_pod_running pods_lists.flatten)

/-- `topology_values` (src/src/kube.rs lines 190-196): the `topology_key` label value
of each node that carries the label. -/
def topology_values (topology_key : String) (nodes : List Node) : List String :=
  nodes.filterMap (fun node =>
    (node.labels.find? (fun kv => kv.1 == topology_key)).map (fun kv => kv.2))

/-! ## Aggregation driver

The repository's current entry points (src/src/node.rs, src/src/deployment.rs,
src/src/pod.rs, src/src/all.rs) call `TopologyTable::create` and
`topology_table_find_by`; those two are declared in a module that is not among the
provided source files — only their callers are — so they are modelled from the
specification (§3, §4.4, §4.5). -/

/-- Modelled from the spec: `TopologyTable` (§3 "Result table"), whose definition is
not under src/ (only its callers are): an optional header plus the ordered skew
rows.  A row {key, count, skew} is the `Zone` structure embedded above. -/
structure TopologyTable where
  header : Option String
  rows : List Zone
deriving DecidableEq, Repr

/-- Modelled from the spec: `TopologyTable::create` (§4.4, the Skew Calculator),
whose definition is not under src/ (only its callers in node.rs and all.rs are).
Its algorithm — count the observed values, seed every known domain at 0, overlay,
subtract the global minimum, sort by key — is the computation of `Region::new`
(src/src/topology.rs lines 92-111) embedded above, so the rows are taken from it. -/
def TopologyTable.create (values : List String) (domains : List String)
    (header : Option String) : TopologyTable :=
  ⟨header, (Region.new "" values domains).zones⟩

/-- Modelled from the spec: `topology_table_find_by` (§4.5, the Aggregation Driver),
whose definition is not under src/ (only its callers in pod.rs, deployment.rs,
daemonset.rs and job.rs are).  Per (name, selector) entry it runs Instance Fetcher →
Domain Resolver → Skew Calculator; `entries` carries each entry's name and the
outcome of its fetch (`pods_by`).  It fails with the NoMatchError "no objects found"
when an entry's resolved node list is empty, aborting the whole call, and otherwise
wraps each entry's rows in a table with header = `use_header ? name : absent`. -/
def topology_table_find_by (api : CachedNodeApi) (topology_key : String)
    (use_header : Bool) :
    List (String × Except String (List Pod)) → Except String (List TopologyTable)
  | [] => Except.ok []
  | (name, fetched) :: rest =>
    match fetched with
    | Except.error e => Except.error e
    | Except.ok pods =>
      match nodes_by pods api with
      | Except.error e => Except.error e
      | Except.ok nodes =>
        if nodes.isEmpty then Except.error "no objects found"
        else
          match topology_table_find_by api topology_key use_header rest with
          | Except.error e => Except.error e
          | Except.ok tables =>
            Except.ok (TopologyTable.create (topology_values topology_key nodes)
              (api.domains topology_key)
              (if use_header then some name else none) :: tables)

/-- The `node` subcommand (src/src/node.rs lines 12-27): list the snapshot nodes
matching the label filter, keep the "running" ones, and bail with "No found nodes"
when none remain; otherwise emit the single header-less table. -/
def node_cmd (api : CachedNodeApi) (labels : List (String × String))
    (topology_key : String) : Except String (List TopologyTable) :=
  let nodes := only_node_running (api.list labels)
  if nodes.isEmpty then Except.error "No found nodes"
  else Except.ok [TopologyTable.create (topology_values topology_key nodes)
    (api.domains topology_key) none]

/-- The `all` subcommand's aggregation loop (src/src/all.rs lines 35-48): for each
(name, labels) entry, fetch the pods (`pods_by`), resolve their nodes (`nodes_by`),
compute the spreading status and insert the created table into the result set —
with no empty-result check anywhere on that path.  `entries` carries each entry's
name and the outcome of its `pods_by` call; the result set (`TopologyTables`, an
ordered deduplicated collection declared outside the provided sources) is embedded
as the `Finset` of its members. -/
def all_cmd (api : CachedNodeApi) (topology_key : String) :
    List (String × Except String (List Pod)) → Except String (Finset TopologyTable)
  | [] => Except.ok ∅
  | (name, fetched) :: rest =>
    match fetched with
    | Except.error e => Except.error e
    | Except.ok pods =>
      match nodes_by pods api with
      | Except.error e => Except.error e
      | Except.ok nodes =>
        match all_cmd api topology_key rest with
        | Except.error e => Except.error e
        | Except.ok tables =>
          Except.ok (insert (TopologyTable.create (topology_values topology_key nodes)
            (api.domains topology_key) (some name)) tables)

/-! ## Result set and renderer entry point (src/src/topology.rs, src/src/view.rs) -/

/-- `Topology` (src/src/topology.rs lines 48-53): an optional workload name and the
regions holding the skew rows.  The `BTreeSet<Region>` is embedded as the list of
its members. -/
structure Topology where
  name : Option String
  regions : List Region
deriving DecidableEq, Repr

/-- `Topologies::from_iter` (src/src/topology.rs lines 33-37): collect into a
`BTreeSet<Topology>`.  The derived `Ord`/`Eq` on `Topology` compare every field, so
the set deduplicates by full structural equality; it is embedded as the `Finset` of
the collected members, the claims about it concerning membership and deduplication
only. -/
def Topologies.from_iter (tables : List Topology) : Finset Topology :=
  tables.toFinset

/-- `Topology::exists` (src/src/topology.rs lines 71-73): `!self.regions.is_empty()`. -/
def Topology.existsb (t : Topology) : Bool :=
  !t.regions.isEmpty

/-- `Topologies::exists` (src/src/topology.rs lines 24-26):
`!self.0.is_empty() && self.0.iter().all(|topology| topology.exists())`. -/
def Topologies.existsb (s : Finset Topology) : Bool :=
  decide s.Nonempty && decide (∀ t ∈ s, t.existsb = true)

/-- The output formats of `view::out` (src/src/view.rs lines 12-17). -/
inductive OutputFormat where
  | text
  | json
  | yaml
  | tree
deriving DecidableEq, Repr

/-- What `view::out` returns: the fallback message, or the rendering of the result
set in the chosen format.  The four renderers are external formatters (spec §1
treats them as collaborators outside the core), so the embedding records which
branch `out` takes and what it hands the renderer rather than the rendered text. -/
inductive RenderOutput where
  | fallback (message : String)
  | rendered (topologies : Finset Topology) (format : OutputFormat)
deriving DecidableEq

/-- `view::out` (src/src/view.rs lines 7-19): return "No resources found." when
`topologies.exists()` is false, otherwise dispatch the whole result set to the
renderer for the chosen format. -/
def out (topologies : Finset Topology) (format : OutputFormat) : RenderOutput :=
  if Topologies.existsb topologies then RenderOutput.rendered topologies format
  else RenderOutput.fallback "No resources found."

/-! ## Order lemmas for `strLe` -/

theorem strLeAux_refl (l : List Char) : strLeAux l l = true := by
  induction l with
  | nil => rfl
  | cons a as ih => simp [strLeAux, ih]

theorem strLeAux_total (l₁ l₂ : List Char) : strLeAux l₁ l₂ = true ∨ strLeAux l₂ l₁ = true := by
  induction l₁ generalizing l₂ with
  | nil => left; rfl
  | cons a as ih =>
    cases l₂ with
    | nil => right; rfl
    | cons b bs =>
      simp only [strLeAux, Bool.or_eq_true, Bool.and_eq_true, decide_eq_true_eq]
      rcases Nat.lt_trichotomy a.val.toNat b.val.toNat with h | h | h
      · left; left; exact h
      · rcases ih bs with h2 | h2
        · left; right; exact ⟨h, h2⟩
        · right; right; exact ⟨h.symm, h2⟩
      · right; left; exact h

theorem strLeAux_antisymm {l₁ l₂ : List Char} (h₁ : strLeAux l₁ l₂ = true)
    (h₂ : strLeAux l₂ l₁ = true) : l₁ = l₂ := by
  induction l₁ generalizing l₂ with
  | nil =>
    cases l₂ with
    | nil => rfl
    | cons b bs => simp [strLeAux] at h₂
  | cons a as ih =>
    cases l₂ with
    | nil => simp [strLeAux] at h₁
    | cons b bs =>
      simp only [strLeAux, Bool.or_eq_true, Bool.and_eq_true, decide_eq_true_eq] at h₁ h₂
      rcases h₁ with h₁ | ⟨he₁, h₁⟩
      · rcases h₂ with h₂ | ⟨he₂, h₂⟩
        · omega
        · omega
      · rcases h₂ with h₂ | ⟨he₂, h₂⟩
        · omega
        · have hab : a = b := Char.ext (UInt32.ext he₁)
          rw [hab, ih h₁ h₂]

theorem strLeAux_trans {l₁ l₂ l₃ : List Char} (h₁ : strLeAux l₁ l₂ = true)
    (h₂ : strLeAux l₂ l₃ = true) : strLeAux l₁ l₃ = true := by
  induction l₁ generalizing l₂ l₃ with
  | nil => rfl
  | cons a as ih =>
    cases l₂ with
    | nil => simp [strLeAux] at h₁
    | cons b bs =>
      cases l₃ with
      | nil => simp [strLeAux] at h₂
      | cons c cs =>
        simp only [strLeAux, Bool.or_eq_true, Bool.and_eq_true, decide_eq_true_eq] at h₁ h₂ ⊢
        rcases h₁ with h₁ | ⟨he₁, h₁⟩
        · rcases h₂ with h₂ | ⟨he₂, h₂⟩
          · left; exact Nat.lt_trans h₁ h₂
          · left; omega
        · rcases h₂ with h₂ | ⟨he₂, h₂⟩
          · left; omega
          · right; exact ⟨he₁.trans he₂, ih h₁ h₂⟩

theorem strLe_refl (a : String) : strLe a a = true := strLeAux_refl a.data

theorem strLe_total (a b : String) : strLe a b = true ∨ strLe b a = true :=
  strLeAux_total a.data b.data

theorem strLe_antisymm {a b : String} (h₁ : strLe a b = true) (h₂ : strLe b a = true) :
    a = b := by
  cases a; cases b
  exact congrArg String.mk (strLeAux_antisymm h₁ h₂)

theorem strLe_trans {a b c : String} (h₁ : strLe a b = true) (h₂ : strLe b c = true) :
    strLe a c = true := strLeAux_trans h₁ h₂

theorem strLt_irrefl (a : String) : ¬strLt a a := fun h => h.2 rfl

theorem strLt_trans {a b c : String} (h₁ : strLt a b) (h₂ : strLt b c) : strLt a c := by
  refine ⟨strLe_trans h₁.1 h₂.1, fun he => ?_⟩
  subst he
  exact h₂.2 (strLe_antisymm h₂.1 h₁.1)

/-! ## Lemmas on ordered key sets -/

theorem mem_insertKey {y k : String} {l : List String} :
    y ∈ insertKey k l ↔ y = k ∨ y ∈ l := by
  induction l with
  | nil => simp [insertKey]
  | cons x xs ih =>
    by_cases h1 : k = x
    · subst h1
      simp only [insertKey, if_pos rfl]
      constructor
      · exact fun h => Or.inr h
      · rintro (rfl | h)
        · exact List.mem_cons_self _ _
        · exact h
    · by_cases h2 : strLe k x = true
      · simp only [insertKey, if_neg h1, if_pos h2]
        exact List.mem_cons
      · simp only [insertKey, if_neg h1, if_neg h2, List.mem_cons, ih]
        tauto

theorem sorted_insertKey {k : String} {l : List String} (h : l.Pairwise strLt) :
    (insertKey k l).Pairwise strLt := by
  induction l with
  | nil => simp [insertKey]
  | cons x xs ih =>
    rcases List.pairwise_cons.mp h with ⟨hx, hxs⟩
    by_cases h1 : k = x
    · simpa [insertKey, if_pos h1] using h
    · by_cases h2 : strLe k x = true
      · simp only [insertKey, if_neg h1, if_pos h2]
        refine List.pairwise_cons.mpr ⟨?_, h⟩
        intro y hy
        rcases List.mem_cons.mp hy with rfl | hy
        · exact ⟨h2, h1⟩
        · exact strLt_trans ⟨h2, h1⟩ (hx y hy)
      · have hxk : strLt x k := by
          rcases strLe_total k x with ht | ht
          · exact absurd ht h2
          · exact ⟨ht, fun he => h1 he.symm⟩
        simp only [insertKey, if_neg h1, if_neg h2]
        refine List.pairwise_cons.mpr ⟨?_, ih hxs⟩
        intro y hy
        rcases mem_insertKey.mp hy with rfl | hy
        · exact hxk
        · exact hx y hy

theorem mem_sortedKeys {y : String} {l : List String} : y ∈ sortedKeys l ↔ y ∈ l := by
  induction l with
  | nil => simp [sortedKeys]
  | cons x xs ih =>
    simp only [sortedKeys, List.foldr_cons, mem_insertKey, List.mem_cons]
    rw [← sortedKeys, ih]

theorem sorted_sortedKeys (l : List String) : (sortedKeys l).Pairwise strLt := by
  induction l with
  | nil => simp [sortedKeys]
  | cons x xs ih => exact sorted_insertKey ih

/-- Two strictly-sorted lists with the same members are equal. -/
theorem sorted_eq_of_mem_iff :
    ∀ {l₁ l₂ : List String}, l₁.Pairwise strLt → l₂.Pairwise strLt →
      (∀ x, x ∈ l₁ ↔ x ∈ l₂) → l₁ = l₂
  | [], [], _, _, _ => rfl
  | [], b :: bs, _, _, hm => absurd ((hm b).mpr (List.mem_cons_self _ _)) (List.not_mem_nil b)
  | a :: as, [], _, _, hm => absurd ((hm a).mp (List.mem_cons_self _ _)) (List.not_mem_nil a)
  | a :: as, b :: bs, h₁, h₂, hm => by
    rcases List.pairwise_cons.mp h₁ with ⟨ha, has⟩
    rcases List.pairwise_cons.mp h₂ with ⟨hb, hbs⟩
    have hab : a = b := by
      rcases List.mem_cons.mp ((hm a).mp (List.mem_cons_self _ _)) with h | h
      · exact h
      · rcases List.mem_cons.mp ((hm b).mpr (List.mem_cons_self _ _)) with h3 | h3
        · exact h3.symm
        · exact absurd (strLt_trans (hb a h) (ha b h3)) (strLt_irrefl b)
    subst hab
    have htails : ∀ x, x ∈ as ↔ x ∈ bs := by
      intro x
      constructor
      · intro hx
        rcases List.mem_cons.mp ((hm x).mp (List.mem_cons.mpr (Or.inr hx))) with h | h
        · exact absurd (h ▸ ha x hx) (strLt_irrefl x)
        · exact h
      · intro hx
        rcases List.mem_cons.mp ((hm x).mpr (List.mem_cons.mpr (Or.inr hx))) with h | h
        · exact absurd (h ▸ hb x hx) (strLt_irrefl x)
        · exact h
    rw [sorted_eq_of_mem_iff has hbs htails]

/-! ## Lemmas on the merged count map and its minimum -/

theorem foldl_min_le_init (xs : List Nat) (x : Nat) : xs.foldl min x ≤ x := by
  induction xs generalizing x with
  | nil => exact Nat.le_refl x
  | cons y ys ih => exact Nat.le_trans (ih (min x y)) (Nat.min_le_left x y)

theorem foldl_min_le_mem (xs : List Nat) (x : Nat) {y : Nat} (hy : y ∈ xs) :
    xs.foldl min x ≤ y := by
  induction xs generalizing x with
  | nil => cases hy
  | cons a as ih =>
    rcases List.mem_cons.mp hy with rfl | hy
    · exact Nat.le_trans (foldl_min_le_init as (min x y)) (Nat.min_le_right x y)
    · exact ih _ hy

theorem foldl_min_mem (xs : List Nat) (x : Nat) :
    xs.foldl min x = x ∨ xs.foldl min x ∈ xs := by
  induction xs generalizing x with
  | nil => left; rfl
  | cons a as ih =>
    rcases ih (min x a) with h | h
    · rcases min_choice x a with hc | hc
      · left; simpa [hc] using h
      · right; rw [List.foldl_cons, h, hc]; exact List.mem_cons_self _ _
    · right; exact List.mem_cons.mpr (Or.inr h)

theorem minOrZero_le {l : List Nat} {y : Nat} (hy : y ∈ l) : minOrZero l ≤ y := by
  cases l with
  | nil => cases hy
  | cons x xs =>
    rcases List.mem_cons.mp hy with rfl | hy
    · exact foldl_min_le_init xs y
    · exact foldl_min_le_mem xs x hy

theorem minOrZero_mem {l : List Nat} (h : l ≠ []) : minOrZero l ∈ l := by
  cases l with
  | nil => exact absurd rfl h
  | cons x xs =>
    rcases foldl_min_mem xs x with h2 | h2
    · exact List.mem_cons.mpr (Or.inl h2)
    · exact List.mem_cons.mpr (Or.inr h2)

theorem mem_mergedKeys {k : String} {all_zones scheduled_zone : List String} :
    k ∈ mergedKeys all_zones scheduled_zone ↔ k ∈ all_zones ∨ k ∈ scheduled_zone := by
  rw [mergedKeys, mem_sortedKeys, List.mem_append]

theorem mem_region_zones {z : Zone} {name : String} {scheduled_zone all_zones : List String} :
    z ∈ (Region.new name scheduled_zone all_zones).zones ↔
      ∃ k ∈ mergedKeys all_zones scheduled_zone,
        z = Zone.new k (u32Of (overlayCount all_zones scheduled_zone k))
          (u32Of (min_count_in_region all_zones scheduled_zone)) := by
  simp only [Region.new, List.mem_map]
  constructor
  · rintro ⟨k, hk, rfl⟩; exact ⟨k, hk, rfl⟩
  · rintro ⟨k, hk, rfl⟩; exact ⟨k, hk, rfl⟩

theorem u32Sub_eq_sub {a b : Nat} (hb : b ≤ a) (ha : a < u32Size) : u32Sub a b = a - b := by
  rw [u32Sub, show a + u32Size - b = (a - b) + u32Size by omega, Nat.add_mod_right]
  exact Nat.mod_eq_of_lt (by omega)

theorem min_count_le_overlay {all_zones scheduled_zone : List String} {k : String}
    (hk : k ∈ mergedKeys all_zones scheduled_zone) :
    min_count_in_region all_zones scheduled_zone ≤ overlayCount all_zones scheduled_zone k :=
  minOrZero_le (List.mem_map_of_mem _ hk)

/-! ## Claim C1

Evaluation of the skew calculation at `hugeV` (2^32 observations of "z-a" and one
of "z-b", with an empty domain set): the merged counts are 2^32 and 1, the exact
minimum is 1, and the `as u32` casts truncate the "z-a" count to 0, so the `u32`
subtraction `0 - 1` wraps to 4294967295. -/

theorem u32Size_ne_zero : u32Size ≠ 0 := by decide

theorem mem_hugeV {x : String} : x ∈ hugeV ↔ x = "z-a" ∨ x = "z-b" := by
  rw [hugeV]
  simp only [List.mem_append, List.mem_replicate, List.mem_cons, List.not_mem_nil, or_false]
  constructor
  · rintro (⟨_, h⟩ | h)
    · exact Or.inl h
    · exact Or.inr h
  · rintro (h | h)
    · exact Or.inl ⟨u32Size_ne_zero, h⟩
    · exact Or.inr h

theorem count_hugeV_za : hugeV.count "z-a" = u32Size := by
  have h1 : (["z-b"] : List String).count "z-a" = 0 := by decide
  rw [hugeV, List.count_append, List.count_replicate,
    if_pos (by decide : ("z-a" == "z-a") = true), h1]
  exact Nat.add_zero u32Size

theorem count_hugeV_zb : hugeV.count "z-b" = 1 := by
  have h1 : (["z-b"] : List String).count "z-b" = 1 := by decide
  rw [hugeV, List.count_append, List.count_replicate,
    if_neg (by decide : ¬("z-a" == "z-b") = true), h1]

theorem mergedKeys_hugeV : mergedKeys [] hugeV = ["z-a", "z-b"] := by
  refine sorted_eq_of_mem_iff (sorted_sortedKeys _) (by decide) ?_
  intro x
  rw [show mergedKeys [] hugeV = sortedKeys ([] ++ hugeV) from rfl, mem_sortedKeys]
  simp only [List.nil_append, mem_hugeV, List.mem_cons, List.not_mem_nil, or_false]

theorem overlay_hugeV_za : overlayCount [] hugeV "z-a" = u32Size := by
  rw [overlayCount, if_pos (mem_hugeV.mpr (Or.inl rfl))]
  exact count_hugeV_za

theorem overlay_hugeV_zb : overlayCount [] hugeV "z-b" = 1 := by
  rw [overlayCount, if_pos (mem_hugeV.mpr (Or.inr rfl))]
  exact count_hugeV_zb

theorem min_hugeV : min_count_in_region [] hugeV = 1 := by
  rw [min_count_in_region, mergedKeys_hugeV, List.map_cons, List.map_cons, List.map_nil,
    overlay_hugeV_za, overlay_hugeV_zb]
  decide

theorem region_hugeV :
    (Region.new "r" hugeV []).zones = [⟨"z-a", 0, 4294967295⟩, ⟨"z-b", 1, 0⟩] := by
  simp only [Region.new, mergedKeys_hugeV, min_hugeV, List.map_cons, List.map_nil,
    overlay_hugeV_za, overlay_hugeV_zb]
  decide

/-- C1: counterexample.  At observed values `hugeV` (2^32 occurrences of "z-a" and
one "z-b") and the empty domain set, the program emits the row
`(z-a, 0, 4294967295)`: its count is not the merged mapping's count at its key
(2^32, truncated by the `as u32` cast of topology.rs line 107), and its skew is not
`count − globalMinimum` (the wrapped `u32` difference `0 - 1`, not `0 − 1 = −1`). -/
theorem skew_row_exact_counterexample :
    ∃ z ∈ (Region.new "r" hugeV []).zones,
      z.count ≠ overlayCount [] hugeV z.name ∧
      (z.skew : ℤ) ≠ (z.count : ℤ) - (min_count_in_region [] hugeV : ℤ) := by
  refine ⟨⟨"z-a", 0, 4294967295⟩, ?_, ?_, ?_⟩
  · rw [region_hugeV]
    exact List.mem_cons_self _ _
  · show (0 : Nat) ≠ overlayCount [] hugeV "z-a"
    rw [overlay_hugeV_za]
    decide
  · rw [min_hugeV]
    decide

/-- C1 (amended): each row's count is the merged mapping's count at its key
truncated by the `as u32` cast, and its skew is the wrapping `u32` difference of
that truncated count and the truncated global minimum; the global minimum is the
exact minimum of the merged mapping — a lower bound of the mapping's counts,
attained whenever the mapping is non-empty, and 0 when it is empty; and whenever
every merged count is below 2^32 (so the casts are the identity), each row
satisfies the exact `skew = count − globalMinimum` of the original claim. -/
theorem skew_row_invariant (name : String) (V D : List String) :
    (∀ z ∈ (Region.new name V D).zones,
        z.count = u32Of (overlayCount D V z.name) ∧
        z.skew = u32Sub z.count (u32Of (min_count_in_region D V))) ∧
    (∀ k ∈ mergedKeys D V, min_count_in_region D V ≤ overlayCount D V k) ∧
    (mergedKeys D V ≠ [] →
      ∃ k ∈ mergedKeys D V, overlayCount D V k = min_count_in_region D V) ∧
    (mergedKeys D V = [] → min_count_in_region D V = 0) ∧
    ((∀ k ∈ mergedKeys D V, overlayCount D V k < u32Size) →
      ∀ z ∈ (Region.new name V D).zones,
        z.count = overlayCount D V z.name ∧
        z.skew = z.count - min_count_in_region D V ∧
        z.skew + min_count_in_region D V = z.count) := by
  refine ⟨?_, ?_, ?_, ?_, ?_⟩
  · intro z hz
    obtain ⟨k, hk, rfl⟩ := mem_region_zones.mp hz
    exact ⟨rfl, rfl⟩
  · intro k hk
    exact min_count_le_overlay hk
  · intro h
    have hmem := minOrZero_mem (l := (mergedKeys D V).map (overlayCount D V))
      (by simpa using h)
    rw [List.mem_map] at hmem
    obtain ⟨k, hk, hke⟩ := hmem
    exact ⟨k, hk, hke⟩
  · intro h
    simp [min_count_in_region, h, minOrZero]
  · intro hbound z hz
    obtain ⟨k, hk, rfl⟩ := mem_region_zones.mp hz
    have hklt := hbound k hk
    have hmle := min_count_le_overlay hk
    have hco : u32Of (overlayCount D V k) = overlayCount D V k := Nat.mod_eq_of_lt hklt
    have hcm : u32Of (min_count_in_region D V) = min_count_in_region D V :=
      Nat.mod_eq_of_lt (Nat.lt_of_le_of_lt hmle hklt)
    refine ⟨hco, ?_, ?_⟩
    · show u32Sub (u32Of (overlayCount D V k)) (u32Of (min_count_in_region D V)) =
        u32Of (overlayCount D V k) - min_count_in_region D V
      rw [hco, hcm, u32Sub_eq_sub hmle hklt]
    · show u32Sub (u32Of (overlayCount D V k)) (u32Of (min_count_in_region D V)) +
        min_count_in_region D V = u32Of (overlayCount D V k)
      rw [hco, hcm, u32Sub_eq_sub hmle hklt]
      exact Nat.sub_add_cancel hmle

/-- Witness for C1 at `V = ["z-a"]`, `D = ["z-a", "z-b"]` (all counts below 2^32),
row `(z-a, 1, 1)`. -/
theorem skew_row_invariant_witness :
    (⟨"z-a", 1, 1⟩ : Zone).count = overlayCount ["z-a", "z-b"] ["z-a"] "z-a" ∧
    (⟨"z-a", 1, 1⟩ : Zone).skew =
      (⟨"z-a", 1, 1⟩ : Zone).count - min_count_in_region ["z-a", "z-b"] ["z-a"] ∧
    (⟨"z-a", 1, 1⟩ : Zone).skew + min_count_in_region ["z-a", "z-b"] ["z-a"] =
      (⟨"z-a", 1, 1⟩ : Zone).count :=
  (skew_row_invariant "r" ["z-a"] ["z-a", "z-b"]).2.2.2.2 (by decide)
    ⟨"z-a", 1, 1⟩ (by decide)

/-! ## Claim C8 -/

/-- C8: counterexample.  At observed values `hugeV` and the empty domain set the
program's row for "z-a" has count 0 (the exact merged count 2^32 truncated by the
`as u32` cast) while the global minimum is 1: the minimum does not bound the row's
count, the operands of the `u32` subtraction in `Zone::new` underflow
(`z.count < u32Of globalMinimum`), and the row's skew is the wrapped value, not
`count − globalMinimum`. -/
theorem skew_underflow_counterexample :
    ∃ z ∈ (Region.new "r" hugeV []).zones,
      z.count < min_count_in_region [] hugeV ∧
      z.count < u32Of (min_count_in_region [] hugeV) ∧
      (z.skew : ℤ) ≠ (z.count : ℤ) - (min_count_in_region [] hugeV : ℤ) := by
  refine ⟨⟨"z-a", 0, 4294967295⟩, ?_, ?_, ?_, ?_⟩
  · rw [region_hugeV]
    exact List.mem_cons_self _ _
  · rw [min_hugeV]
    decide
  · rw [min_hugeV]
    decide
  · rw [min_hugeV]
    decide

/-- C8 (amended): whenever every merged count is below 2^32 — so the `as u32` casts
of topology.rs line 107 are the identity — the computed global minimum is less than
or equal to every row's count and the `u32` subtraction in `Zone::new` never
underflows: over the integers, every row's skew equals its count minus the global
minimum and is non-negative. -/
theorem skew_never_underflows (name : String) (V D : List String)
    (hbound : ∀ k ∈ mergedKeys D V, overlayCount D V k < u32Size) :
    ∀ z ∈ (Region.new name V D).zones,
      min_count_in_region D V ≤ z.count ∧
      (z.skew : ℤ) = (z.count : ℤ) - (min_count_in_region D V : ℤ) ∧
      0 ≤ (z.skew : ℤ) := by
  intro z hz
  obtain ⟨k, hk, rfl⟩ := mem_region_zones.mp hz
  have hklt := hbound k hk
  have hmle := min_count_le_overlay hk
  have hco : u32Of (overlayCount D V k) = overlayCount D V k := Nat.mod_eq_of_lt hklt
  have hcm : u32Of (min_count_in_region D V) = min_count_in_region D V :=
    Nat.mod_eq_of_lt (Nat.lt_of_le_of_lt hmle hklt)
  have hsub : u32Sub (u32Of (overlayCount D V k)) (u32Of (min_count_in_region D V)) =
      overlayCount D V k - min_count_in_region D V := by
    rw [hco, hcm, u32Sub_eq_sub hmle hklt]
  refine ⟨?_, ?_, ?_⟩
  · show min_count_in_region D V ≤ u32Of (overlayCount D V k)
    rw [hco]
    exact hmle
  · show (u32Sub (u32Of (overlayCount D V k)) (u32Of (min_count_in_region D V)) : ℤ) =
      (u32Of (overlayCount D V k) : ℤ) - (min_count_in_region D V : ℤ)
    rw [hsub, hco, Nat.cast_sub hmle]
  · show (0 : ℤ) ≤ (u32Sub (u32Of (overlayCount D V k)) (u32Of (min_count_in_region D V)) : ℤ)
    positivity

/-- Witness for C8 at `V = ["z-a", "z-a"]`, `D = ["z-a", "z-b"]` (all counts below
2^32), row `(z-a, 2, 2)`. -/
theorem skew_never_underflows_witness :
    min_count_in_region ["z-a", "z-b"] ["z-a", "z-a"] ≤ (⟨"z-a", 2, 2⟩ : Zone).count ∧
    ((⟨"z-a", 2, 2⟩ : Zone).skew : ℤ) = ((⟨"z-a", 2, 2⟩ : Zone).count : ℤ) -
      (min_count_in_region ["z-a", "z-b"] ["z-a", "z-a"] : ℤ) ∧
    0 ≤ ((⟨"z-a", 2, 2⟩ : Zone).skew : ℤ) :=
  skew_never_underflows "r" ["z-a", "z-a"] ["z-a", "z-b"] (by decide)
    ⟨"z-a", 2, 2⟩ (by decide)

/-! ## Claim C2 -/

/-- C2: the row keys of the skew calculation are exactly `D ∪ {values of V}`: a key
has a row iff it is a member of the domain set `D` or occurs among the observed
values `V`; a member of `D` with no occurrence in `V` still has a row, with count 0;
and a value of `V` absent from `D` has a row (carrying its occurrence count as cast
to `u32` by topology.rs line 107). -/
theorem row_keys_complete (name : String) (V D : List String) :
    (∀ k : String, (∃ z ∈ (Region.new name V D).zones, z.name = k) ↔ (k ∈ D ∨ k ∈ V)) ∧
    (∀ k ∈ D, k ∉ V →
      ∃ z ∈ (Region.new name V D).zones, z.name = k ∧ z.count = 0) ∧
    (∀ k ∈ V, k ∉ D →
      ∃ z ∈ (Region.new name V D).zones, z.name = k ∧ z.count = u32Of (V.count k)) := by
  refine ⟨?_, ?_, ?_⟩
  · intro k
    constructor
    · rintro ⟨z, hz, rfl⟩
      obtain ⟨k, hk, rfl⟩ := mem_region_zones.mp hz
      exact mem_mergedKeys.mp hk
    · intro hk
      refine ⟨Zone.new k (u32Of (overlayCount D V k)) (u32Of (min_count_in_region D V)),
        mem_region_zones.mpr ⟨k, mem_mergedKeys.mpr hk, rfl⟩, rfl⟩
  · intro k hkD hkV
    refine ⟨Zone.new k (u32Of (overlayCount D V k)) (u32Of (min_count_in_region D V)),
      mem_region_zones.mpr ⟨k, mem_mergedKeys.mpr (Or.inl hkD), rfl⟩, rfl, ?_⟩
    simp [Zone.new, overlayCount, hkV, u32Of]
  · intro k hkV hkD
    refine ⟨Zone.new k (u32Of (overlayCount D V k)) (u32Of (min_count_in_region D V)),
      mem_region_zones.mpr ⟨k, mem_mergedKeys.mpr (Or.inr hkV), rfl⟩, rfl, ?_⟩
    simp [Zone.new, overlayCount, hkV]

/-- Witness for C2 at `V = ["z-x"]`, `D = ["z-a"]`: the zero-count domain row and
the extension row both exist. -/
theorem row_keys_complete_witness :
    (∃ z ∈ (Region.new "r" ["z-x"] ["z-a"]).zones, z.name = "z-a" ∧ z.count = 0) ∧
    (∃ z ∈ (Region.new "r" ["z-x"] ["z-a"]).zones, z.name = "z-x" ∧
      z.count = u32Of (List.count "z-x" ["z-x"])) :=
  ⟨(row_keys_complete "r" ["z-x"] ["z-a"]).2.1 "z-a" (by decide) (by decide),
   (row_keys_complete "r" ["z-x"] ["z-a"]).2.2 "z-x" (by decide) (by decide)⟩

/-! ## Claim C3 -/

/-- C3: the rows of the skew calculation are unique by key and ordered strictly
ascending by key in the lexicographic string order, and the result does not depend
on the iteration order of the observed values `V` (any permutation) or of the
domain set `D` (any list with the same members). -/
theorem rows_sorted_and_order_independent (name : String) (V D V₂ D₂ : List String) :
    ((Region.new name V D).zones.Pairwise (fun z₁ z₂ => strLt z₁.name z₂.name)) ∧
    (V.Perm V₂ → D.toFinset = D₂.toFinset →
      Region.new name V D = Region.new name V₂ D₂) := by
  constructor
  · exact List.Pairwise.map _ (fun a b h => h) (sorted_sortedKeys (D ++ V))
  · intro hV hD
    have hmem : ∀ x, (x ∈ D ∨ x ∈ V) ↔ (x ∈ D₂ ∨ x ∈ V₂) := by
      intro x
      have hd : x ∈ D ↔ x ∈ D₂ := by
        rw [← List.mem_toFinset, hD, List.mem_toFinset]
      rw [hd, hV.mem_iff]
    have hkeys : mergedKeys D V = mergedKeys D₂ V₂ :=
      sorted_eq_of_mem_iff (sorted_sortedKeys _) (sorted_sortedKeys _)
        (fun x => by rw [mem_mergedKeys, mem_mergedKeys]; exact hmem x)
    have hover : overlayCount D V = overlayCount D₂ V₂ := by
      funext k
      simp only [overlayCount]
      rw [if_congr (by rw [hV.mem_iff]) (hV.count_eq k) rfl]
    simp only [Region.new, min_count_in_region, hkeys, hover]

/-- Witness for C3: permuting `V` and reordering or repeating members of `D` leaves
the skew table unchanged. -/
theorem rows_sorted_and_order_independent_witness :
    Region.new "r" ["z-b", "z-a"] ["z-c"] = Region.new "r" ["z-a", "z-b"] ["z-c", "z-c"] :=
  (rows_sorted_and_order_independent "r" ["z-b", "z-a"] ["z-c"] ["z-a", "z-b"]
    ["z-c", "z-c"]).2 (by decide) (by decide)

/-! ## Claim C4 -/

/-- C4: counterexample.  `only_node_running` keeps `notReadyNode` — a node whose only
status condition is `Ready = "False"` and which the claimed filter must drop
(`node_ready_spec notReadyNode = false`): the filter tests only that the `is_ready`
closure returned a value (`.is_some()`), never the readiness boolean it computed. -/
theorem only_node_running_keeps_unready_node :
    only_node_running [notReadyNode] = [notReadyNode] ∧
    node_ready_spec notReadyNode = false := by
  constructor
  · rfl
  · rfl

/-! ## Claim C6 -/

theorem collect_results_map_ok (lists : List (List Pod)) :
    collect_results (lists.map Except.ok) = Except.ok lists := by
  induction lists with
  | nil => rfl
  | cons l ls ih => simp [collect_results, ih]

theorem collect_results_ok {results : List (Except String (List Pod))}
    {lists : List (List Pod)} (h : collect_results results = Except.ok lists) :
    results = lists.map Except.ok := by
  induction results generalizing lists with
  | nil =>
    simp only [collect_results, Except.ok.injEq] at h
    subst h
    rfl
  | cons r rs ih =>
    cases r with
    | error e => simp [collect_results] at h
    | ok pods =>
      simp only [collect_results] at h
      cases hr : collect_results rs with
      | error e => rw [hr] at h; simp at h
      | ok rest =>
        rw [hr] at h
        simp only [Except.ok.injEq] at h
        subst h
        simp [List.map_cons, ih hr]

theorem collect_results_error_of_mem {results : List (Except String (List Pod))}
    {e : String} (h : Except.error e ∈ results) :
    ∃ e₂, collect_results results = Except.error e₂ := by
  induction results with
  | nil => cases h
  | cons r rs ih =>
    cases r with
    | error e₁ => exact ⟨e₁, rfl⟩
    | ok pods =>
      rcases List.mem_cons.mp h with h1 | h1
      · cases h1
      · obtain ⟨e₂, he₂⟩ := ih h1
        refine ⟨e₂, ?_⟩
        simp [collect_results, he₂]

/-- C6: `pods_by` is fail-fast and never merges partially: if any underlying
per-selector list call failed, the whole batch is an error; if every call
succeeded, the result is the complete merge of all per-selector lists (filtered to
running pods); and any successful result arises exactly that way. -/
theorem pods_by_fail_fast (results : List (Except String (List Pod))) :
    ((∃ e, Except.error e ∈ results) → ∃ e, pods_by results = Except.error e) ∧
    (∀ lists : List (List Pod), results = lists.map Except.ok →
      pods_by results = Except.ok (only_pod_running lists.flatten)) ∧
    (∀ pods, pods_by results = Except.ok pods →
      ∃ lists : List (List Pod), results = lists.map Except.ok ∧
        pods = only_pod_running lists.flatten) := by
  refine ⟨?_, ?_, ?_⟩
  · rintro ⟨e, he⟩
    obtain ⟨e₂, he₂⟩ := collect_results_error_of_mem he
    exact ⟨e₂, by simp [pods_by, he₂]⟩
  · rintro lists rfl
    simp [pods_by, collect_results_map_ok]
  · intro pods h
    cases hc : collect_results results with
    | error e => rw [pods_by, hc] at h; cases h
    | ok lists =>
      rw [pods_by, hc] at h
      simp only [Except.ok.injEq] at h
      exact ⟨lists, collect_results_ok hc, h.symm⟩

/-- Witness for C6: a batch containing one failed call errors; a batch of two
successful calls returns the complete running-filtered merge. -/
theorem pods_by_fail_fast_witness :
    (∃ e, pods_by [Except.ok [], Except.error "Fail to get pods"] = Except.error e) ∧
    pods_by [Except.ok [⟨"p1", none, none⟩], Except.ok [⟨"p2", none, none⟩]] =
      Except.ok (only_pod_running ([[⟨"p1", none, none⟩], [⟨"p2", none, none⟩]] :
        List (List Pod)).flatten) :=
  ⟨(pods_by_fail_fast [Except.ok [], Except.error "Fail to get pods"]).1
      ⟨"Fail to get pods", List.Mem.tail _ (List.Mem.head _)⟩,
   (pods_by_fail_fast [Except.ok [⟨"p1", none, none⟩], Except.ok [⟨"p2", none, none⟩]]).2.1
      [[⟨"p1", none, none⟩], [⟨"p2", none, none⟩]] rfl⟩

/-! ## Claim C7 -/

/-- C7: node lookup is total over the snapshot and node resolution never fails:
`get` returns a cached node exactly when the name is present (and nothing
otherwise, without any further listing — it is a pure projection of the snapshot);
`nodes_by` always returns `Ok`; and a pod bound to a node name absent from the
snapshot is silently dropped from resolution. -/
theorem node_lookup_total (api : CachedNodeApi) :
    (∀ node_name : String,
      (∀ node, api.get node_name = some node → (node_name, node) ∈ api.cached) ∧
      (api.get node_name = none ↔ ∀ kv ∈ api.cached, kv.1 ≠ node_name)) ∧
    (∀ pods : List Pod, nodes_by pods api =
      Except.ok (only_node_running
        ((node_names pods).filterMap (fun node_name => api.get node_name)))) ∧
    (∀ (pod : Pod) (pods : List Pod) (nm : String),
      pod.spec.bind (fun spec => spec.node_name) = some nm → api.get nm = none →
      nodes_by (pod :: pods) api = nodes_by pods api) := by
  refine ⟨?_, ?_, ?_⟩
  · intro node_name
    constructor
    · intro node h
      simp only [CachedNodeApi.get, Option.map_eq_some'] at h
      obtain ⟨kv, hfind, hsnd⟩ := h
      have hmem := List.mem_of_find?_eq_some hfind
      have hp := List.find?_some hfind
      have h1 : kv.1 = node_name := by simpa using hp
      have : kv = (node_name, node) := by
        cases kv
        simp only at h1 hsnd
        rw [h1, hsnd]
      exact this ▸ hmem
    · simp [CachedNodeApi.get, Option.map_eq_none', List.find?_eq_none]
  · intro pods
    rfl
  · intro pod pods nm hnm hget
    simp [nodes_by, node_names, List.filterMap_cons, hnm, hget]

/-- Witness for C7: a pod bound to the absent node name "n2" is dropped without
an error. -/
theorem node_lookup_total_witness :
    nodes_by [⟨"p1", some ⟨some "n2"⟩, none⟩] ⟨[("n1", ⟨"n1", [], none⟩)]⟩ =
      nodes_by [] ⟨[("n1", ⟨"n1", [], none⟩)]⟩ :=
  (node_lookup_total ⟨[("n1", ⟨"n1", [], none⟩)]⟩).2.2 ⟨"p1", some ⟨some "n2"⟩, none⟩ []
    "n2" (by decide) (by decide)

/-! ## Claim C5 -/

/-- C5: counterexample.  The `all` subcommand (src/src/all.rs) is an aggregate
query whose loop performs no empty-match check: an entry whose fetch succeeded
with zero instances resolves to zero nodes, yet the call succeeds and returns
that entry's zero-row table — not an error. -/
theorem all_cmd_succeeds_on_empty_match :
    all_cmd ⟨[]⟩ "topology.kubernetes.io/zone" [("w", Except.ok [])] =
      Except.ok {(⟨some "w", []⟩ : TopologyTable)} := by
  rw [show all_cmd ⟨[]⟩ "topology.kubernetes.io/zone" [("w", Except.ok [])] =
    Except.ok (insert (TopologyTable.create [] [] (some "w")) ∅) from rfl]
  exact congrArg Except.ok (by decide)

/-- C5 (amended): aggregate queries running through the per-workload driver
(`topology_table_find_by`: the pod, deployment, statefulset, daemonset and job
subcommands) are fail-fast on empty matches — whenever some entry's fetch succeeded
but its resolved node list (lookup of the bound node names in the snapshot,
filtered by `only_node_running`) is empty, the whole call returns an error and no
partial result, and a successful call carries exactly one table per entry; the
node subcommand likewise bails with "No found nodes" when no snapshot node
survives its filter; the `all` subcommand's aggregate, however, performs no such
check: when every entry's fetch succeeds it always returns a successful result,
zero-instance entries included. -/
theorem driver_errors_on_empty_match (api : CachedNodeApi) (topology_key : String)
    (use_header : Bool) :
    (∀ entries : List (String × Except String (List Pod)),
      (∃ p ∈ entries, ∃ pods, p.2 = Except.ok pods ∧
        only_node_running ((node_names pods).filterMap (fun n => api.get n)) = []) →
      ∃ e, topology_table_find_by api topology_key use_header entries = Except.error e) ∧
    (∀ entries tables, topology_table_find_by api topology_key use_header entries =
      Except.ok tables → tables.length = entries.length) ∧
    (∀ labels, only_node_running (api.list labels) = [] →
      node_cmd api labels topology_key = Except.error "No found nodes") ∧
    (∀ entries : List (String × Except String (List Pod)),
      (∀ p ∈ entries, ∃ pods, p.2 = Except.ok pods) →
      ∃ tables, all_cmd api topology_key entries = Except.ok tables) := by
  refine ⟨?_, ?_, ?_, ?_⟩
  · intro entries
    induction entries with
    | nil => rintro ⟨p, hp, _⟩; cases hp
    | cons entry rest ih =>
      rintro ⟨p, hp, pods, hpod, hempty⟩
      obtain ⟨name, fetched⟩ := entry
      rcases List.mem_cons.mp hp with rfl | hpr
      · simp only at hpod
        subst hpod
        refine ⟨"no objects found", ?_⟩
        simp [topology_table_find_by, nodes_by, hempty]
      · cases fetched with
        | error e => exact ⟨e, rfl⟩
        | ok pods₂ =>
          by_cases hemp₂ :
            only_node_running ((node_names pods₂).filterMap (fun n => api.get n)) = []
          · refine ⟨"no objects found", ?_⟩
            simp [topology_table_find_by, nodes_by, hemp₂]
          · obtain ⟨e, he⟩ := ih ⟨p, hpr, pods, hpod, hempty⟩
            refine ⟨e, ?_⟩
            simp [topology_table_find_by, nodes_by, he,
              List.isEmpty_iff, hemp₂]
  · intro entries
    induction entries with
    | nil =>
      intro tables h
      simp only [topology_table_find_by, Except.ok.injEq] at h
      subst h
      rfl
    | cons entry rest ih =>
      intro tables h
      obtain ⟨name, fetched⟩ := entry
      cases fetched with
      | error e => simp [topology_table_find_by] at h
      | ok pods =>
        simp only [topology_table_find_by, nodes_by] at h
        by_cases hemp :
          only_node_running ((node_names pods).filterMap (fun n => api.get n)) = []
        · simp [hemp] at h
        · rw [if_neg (by simpa [List.isEmpty_iff] using hemp)] at h
          cases hr : topology_table_find_by api topology_key use_header rest with
          | error e => rw [hr] at h; cases h
          | ok tables₂ =>
            rw [hr] at h
            simp only [Except.ok.injEq] at h
            subst h
            simp [ih tables₂ hr]
  · intro labels hempty
    simp [node_cmd, hempty]
  · intro entries
    induction entries with
    | nil => exact fun _ => ⟨∅, rfl⟩
    | cons entry rest ih =>
      intro hall
      obtain ⟨name, fetched⟩ := entry
      obtain ⟨pods, hpods⟩ := hall _ (List.mem_cons_self _ _)
      simp only at hpods
      subst hpods
      obtain ⟨tables, htab⟩ := ih (fun p hp => hall p (List.mem_cons.mpr (Or.inr hp)))
      refine ⟨insert (TopologyTable.create (topology_values topology_key
          (only_node_running ((node_names pods).filterMap (fun node_name => api.get node_name))))
        (api.domains topology_key) (some name)) tables, ?_⟩
      simp [all_cmd, nodes_by, htab]

/-- Witness for C5: an entry that fetched no pods (hence resolves to no nodes)
makes the driver error, an empty node listing makes the node subcommand bail, and
the all subcommand succeeds on the very same empty entry. -/
theorem driver_errors_on_empty_match_witness :
    (∃ e, topology_table_find_by ⟨[]⟩ "topology.kubernetes.io/zone" true
      [("w", Except.ok [])] = Except.error e) ∧
    node_cmd ⟨[]⟩ [] "topology.kubernetes.io/zone" = Except.error "No found nodes" ∧
    (∃ tables, all_cmd ⟨[]⟩ "topology.kubernetes.io/zone" [("w", Except.ok [])] =
      Except.ok tables) :=
  ⟨(driver_errors_on_empty_match ⟨[]⟩ "topology.kubernetes.io/zone" true).1
      [("w", Except.ok [])] ⟨("w", Except.ok []), List.Mem.head _, [], rfl, rfl⟩,
   (driver_errors_on_empty_match ⟨[]⟩ "topology.kubernetes.io/zone" true).2.2.1 [] rfl,
   (driver_errors_on_empty_match ⟨[]⟩ "topology.kubernetes.io/zone" true).2.2.2
      [("w", Except.ok [])] (by
        rintro p hp
        rcases List.mem_cons.mp hp with rfl | hp₂
        · exact ⟨[], rfl⟩
        · cases hp₂)⟩

/-! ## Claim C9 -/

/-- C9: the result set deduplicates by full structural equality: collecting a table
equal to an already-present one in every field (header and rows) leaves the set
unchanged, while two tables differing in any field (header or rows) are both
retained as distinct members. -/
theorem result_set_dedup_by_full_equality :
    (∀ (rest : List Topology) (t t₂ : Topology), t.name = t₂.name →
      t.regions = t₂.regions →
      Topologies.from_iter (t :: t₂ :: rest) = Topologies.from_iter (t₂ :: rest)) ∧
    (∀ t t₂ : Topology, (t.name ≠ t₂.name ∨ t.regions ≠ t₂.regions) →
      t ∈ Topologies.from_iter [t, t₂] ∧ t₂ ∈ Topologies.from_iter [t, t₂] ∧
      (Topologies.from_iter [t, t₂]).card = 2) := by
  constructor
  · intro rest t t₂ hname hregions
    have ht : t = t₂ := by
      cases t; cases t₂
      simp only at hname hregions
      rw [hname, hregions]
    subst ht
    simp [Topologies.from_iter, List.toFinset_cons]
  · intro t t₂ h
    have hne : t ≠ t₂ := by
      intro he
      subst he
      rcases h with h | h
      · exact h rfl
      · exact h rfl
    refine ⟨?_, ?_, ?_⟩
    · simp [Topologies.from_iter]
    · simp [Topologies.from_iter]
    · simp only [Topologies.from_iter, List.toFinset_cons, List.toFinset_nil,
        insert_emptyc_eq]
      exact Finset.card_pair hne

/-- Witness for C9: two equal tables collapse to one member; two tables differing
only in the header stay distinct. -/
theorem result_set_dedup_by_full_equality_witness :
    Topologies.from_iter [⟨some "a", []⟩, ⟨some "a", []⟩] =
      Topologies.from_iter [⟨some "a", []⟩] ∧
    (Topologies.from_iter [⟨some "a", []⟩, ⟨some "b", []⟩]).card = 2 :=
  ⟨(result_set_dedup_by_full_equality).1 [] ⟨some "a", []⟩ ⟨some "a", []⟩ rfl rfl,
   ((result_set_dedup_by_full_equality).2 ⟨some "a", []⟩ ⟨some "b", []⟩
      (Or.inl (by decide))).2.2⟩

/-! ## Claim C10 -/

theorem topologies_existsb_eq_false {s : Finset Topology} :
    Topologies.existsb s = false ↔ s = ∅ ∨ ∃ t ∈ s, t.regions = [] := by
  simp only [Topologies.existsb, Bool.and_eq_false_iff, decide_eq_false_iff_not,
    Finset.not_nonempty_iff_eq_empty, Topology.existsb]
  constructor
  · rintro (h | h)
    · exact Or.inl h
    · push_neg at h
      obtain ⟨t, ht, hreg⟩ := h
      refine Or.inr ⟨t, ht, ?_⟩
      simpa [List.isEmpty_iff] using hreg
  · rintro (h | ⟨t, ht, hreg⟩)
    · exact Or.inl h
    · refine Or.inr ?_
      push_neg
      exact ⟨t, ht, by simp [hreg]⟩

/-- C10: the renderer entry point returns the fallback "No resources found." exactly
when the result set is empty or some table in it has an empty row collection; in
particular, a result set holding one table with rows and one table without renders
the fallback, discarding the non-empty table's data. -/
theorem out_fallback_iff (s : Finset Topology) (format : OutputFormat) :
    (out s format = RenderOutput.fallback "No resources found." ↔
      (s = ∅ ∨ ∃ t ∈ s, t.regions = [])) ∧
    (∀ t₁ t₂ : Topology, t₁.regions ≠ [] → t₂.regions = [] →
      out (Topologies.from_iter [t₁, t₂]) format =
        RenderOutput.fallback "No resources found.") := by
  constructor
  · cases h : Topologies.existsb s with
    | false =>
      simp only [out, h, if_false, Bool.false_eq_true]
      simp only [true_iff]
      exact topologies_existsb_eq_false.mp h
    | true =>
      simp only [out, h, if_true]
      constructor
      · intro hr
        cases hr
      · intro hr
        rw [← topologies_existsb_eq_false] at hr
        rw [h] at hr
        cases hr
  · intro t₁ t₂ hne hempty
    have hfalse : Topologies.existsb (Topologies.from_iter [t₁, t₂]) = false := by
      rw [topologies_existsb_eq_false]
      exact Or.inr ⟨t₂, by simp [Topologies.from_iter], hempty⟩
    simp [out, hfalse]

/-- Witness for C10: a set holding one table with a region and one with none falls
back to "No resources found." in every format. -/
theorem out_fallback_iff_witness :
    out (Topologies.from_iter [⟨some "a", [⟨"r", []⟩]⟩, ⟨some "b", []⟩]) OutputFormat.text =
      RenderOutput.fallback "No resources found." :=
  (out_fallback_iff (Topologies.from_iter [⟨some "a", [⟨"r", []⟩]⟩, ⟨some "b", []⟩])
    OutputFormat.text).2 ⟨some "a", [⟨"r", []⟩]⟩ ⟨some "b", []⟩ (by decide) rfl

end TopologySkew

